import Mathlib

/-!
Shallow embedding of `conway_chess.py` (Conway's Game of Chess): the
board/piece life-cycle state machine, turn resolution, birth queues and the
lockstep sync check, together with theorems settling the specification
claims about them.

Python exceptions (the King `perish` paths and the `ValueError` in
`set_new_piece`) are modelled with `Except`; where an exception escapes a
mutating pass, the error value carries the board as mutated so far, which is
exactly the state the Python engine is left with after it catches the
exception in `update_state`.
-/

/-- `Side` mirrors the `side` strings "white" / "black" / "empty". -/
inductive Side
  | white
  | black
  | empty
deriving DecidableEq

/-- The chess piece subclasses of `Piece` (other than `Empty`). -/
inductive Kind
  | pawn
  | rook
  | knight
  | bishop
  | queen
  | king
deriving DecidableEq

/-- `Piece.__init__` attributes.  `kind = none` corresponds to the `Empty`
subclass.  In the source `row`/`col` start at `-1` and are always set by
`set_position` before any read, so the embedding stores them as `Fin 8`. -/
structure Piece where
  side : Side
  kind : Option Kind
  row : Fin 8
  col : Fin 8
  death_counter : Nat
  birth_counter_white : Nat
  birth_counter_black : Nat
  surrounding_white : Nat
  surrounding_black : Nat
deriving DecidableEq

/-- A freshly constructed piece (all counters zero), already positioned. -/
def Piece.start (side : Side) (kind : Option Kind) (row col : Fin 8) : Piece :=
  { side := side, kind := kind, row := row, col := col,
    death_counter := 0, birth_counter_white := 0, birth_counter_black := 0,
    surrounding_white := 0, surrounding_black := 0 }

/-- `Piece.set_position`. -/
def Piece.set_position (p : Piece) (row col : Fin 8) : Piece :=
  { p with row := row, col := col }

/-- Counting the pieces of one side in a neighbour list (the counting loops
inside `Piece.tick`). -/
def countSide (ps : List Piece) (s : Side) : Nat :=
  ps.countP (fun q => decide (q.side = s))

/-- `Piece.tick(surrounding_pieces, current_turn, update_counters)`. -/
def Piece.tick (p : Piece) (surrounding : List Piece) (current_turn : Side)
    (update_counters : Bool) : Piece :=
  let sw := countSide surrounding Side.white
  let sb := countSide surrounding Side.black
  let p1 := { p with surrounding_white := sw, surrounding_black := sb }
  if update_counters = false then p1
  else if p1.side = Side.empty then
    let p2 :=
      if current_turn = Side.white then
        (if sw = 3 then { p1 with birth_counter_white := p1.birth_counter_white + 1 }
         else { p1 with birth_counter_white := 0 })
      else p1
    let p3 :=
      if current_turn = Side.black then
        (if sb = 3 then { p2 with birth_counter_black := p2.birth_counter_black + 1 }
         else { p2 with birth_counter_black := 0 })
      else p2
    p3
  else if current_turn = p1.side then
    let same := countSide surrounding p1.side
    if same < 2 ∨ same > 3 then { p1 with death_counter := p1.death_counter + 1 }
    else { p1 with death_counter := 0 }
  else p1

/-- `Piece.move_is_valid` together with the `Empty` override (which returns
`False` unconditionally). -/
def Piece.move_is_valid (p : Piece) (dest : Piece) : Bool :=
  if p.side = Side.empty then false
  else if dest.side = p.side then false
  else true

/-- The message raised by `King.perish`. -/
def perishMessage (side : Side) (conway : Bool) : String :=
  let winning : String := if side = Side.black then "white" else "black"
  let losing : String := if side = Side.black then "Black" else "White"
  if conway then losing ++ " king perished, " ++ winning ++ " wins!"
  else losing ++ " king was captured, " ++ winning ++ " wins!"

/-- `Piece.perish` / `King.perish`: a no-op except for a King, which raises. -/
def Piece.perish (p : Piece) (conway : Bool) : Except String Unit :=
  if p.kind = some Kind.king then Except.error (perishMessage p.side conway)
  else Except.ok ()

/-- Uppercase symbol of a kind (White pieces, and the birth-queue letters). -/
def Kind.letter : Kind → String
  | Kind.pawn => "P"
  | Kind.rook => "R"
  | Kind.knight => "N"
  | Kind.bishop => "B"
  | Kind.queen => "Q"
  | Kind.king => "K"

/-- Lowercase symbol of a kind (Black pieces). -/
def Kind.letterLower : Kind → String
  | Kind.pawn => "p"
  | Kind.rook => "r"
  | Kind.knight => "n"
  | Kind.bishop => "b"
  | Kind.queen => "q"
  | Kind.king => "k"

/-- `str(piece)`: the display symbol used in move records. -/
def Piece.symbol (p : Piece) : String :=
  match p.kind with
  | none => " "
  | some k => if p.side = Side.white then k.letter else k.letterLower

/-- The board: an 8x8 grid of pieces, a list of rows as in `Board.board`. -/
def Board : Type := Mathlib.Vector (Mathlib.Vector Piece 8) 8

instance : DecidableEq Board := by
  unfold Board
  infer_instance

/-- `Board.get_piece` — the read `self.board[row][col]`. -/
def Board.get_piece (b : Board) (row col : Fin 8) : Piece :=
  (Mathlib.Vector.get b row).get col

/-- Assignment `self.board[r][c] = p`. -/
def updateBoard (b : Board) (r c : Fin 8) (p : Piece) : Board :=
  Mathlib.Vector.set b r ((Mathlib.Vector.get b r).set c p)

/-- The back-rank kinds `[R, N, B, Q, K, B, N, R]` from `Board.__init__`. -/
def backRank (j : Fin 8) : Kind :=
  match j.val with
  | 0 => Kind.rook
  | 1 => Kind.knight
  | 2 => Kind.bishop
  | 3 => Kind.queen
  | 4 => Kind.king
  | 5 => Kind.bishop
  | 6 => Kind.knight
  | _ => Kind.rook

/-- Side of each rank in the initial position. -/
def startSide (i : Fin 8) : Side :=
  if i.val ≤ 1 then Side.white
  else if 6 ≤ i.val then Side.black
  else Side.empty

/-- Kind of each square in the initial position. -/
def startKind (i j : Fin 8) : Option Kind :=
  if i.val = 0 ∨ i.val = 7 then some (backRank j)
  else if i.val = 1 ∨ i.val = 6 then some Kind.pawn
  else none

/-- `Board.__init__`: ranks 1/8 are the back ranks, ranks 2/7 pawns, the rest
empty; every piece gets `set_position(i, j)`. -/
def startBoard : Board :=
  Mathlib.Vector.ofFn (fun i =>
    Mathlib.Vector.ofFn (fun j => Piece.start (startSide i) (startKind i j) i j))

/-- The row-major scan of `Board.get_pieces` (and of the White birth scan):
`for i in range(8): for j in range(8)`. -/
def allPositions : List (Fin 8 × Fin 8) :=
  (List.finRange 8).flatMap (fun i => (List.finRange 8).map (fun j => (i, j)))

/-- `Board.get_pieces`: all 64 pieces in row-major order. -/
def Board.get_pieces (b : Board) : List Piece :=
  allPositions.map (fun pos => b.get_piece pos.1 pos.2)

/-- The Moore-neighbourhood offsets in the order the nested loops of
`get_surrounding_pieces` visit them. -/
def surroundingOffsets : List (Int × Int) :=
  [(-1, -1), (-1, 0), (-1, 1), (0, -1), (0, 1), (1, -1), (1, 0), (1, 1)]

/-- `Board.get_surrounding_pieces`: the up-to-8 neighbours of `piece`,
clipped at the board edges. -/
def Board.get_surrounding_pieces (b : Board) (piece : Piece) : List Piece :=
  surroundingOffsets.filterMap (fun o =>
    let r : Int := (piece.row : Int) + o.1
    let c : Int := (piece.col : Int) + o.2
    if h : 0 ≤ r ∧ r < 8 ∧ 0 ≤ c ∧ c < 8 then
      some (b.get_piece ⟨r.toNat, by omega⟩ ⟨c.toNat, by omega⟩)
    else none)

/-- Symbol-to-class dispatch of `Board.set_new_piece`. -/
def symToKind : String → Option Kind
  | "P" => some Kind.pawn
  | "R" => some Kind.rook
  | "N" => some Kind.knight
  | "B" => some Kind.bishop
  | "Q" => some Kind.queen
  | "K" => some Kind.king
  | _ => none

/-- `Board.set_new_piece`: place a freshly built piece, or raise
`ValueError("invalid piece")` on an unknown symbol. -/
def Board.set_new_piece (b : Board) (row col : Fin 8) (piece : String)
    (side : Side) : Except String Board :=
  match symToKind piece with
  | some k => Except.ok (updateBoard b row col (Piece.start side (some k) row col))
  | none => Except.error "invalid piece"

/-- `Board.kill_piece`: a no-op unless `piece.side == turn`; otherwise
`perish(conway=True)` runs first (raising for a King, before the square is
cleared), then the square is replaced by a positioned `Empty`. -/
def Board.kill_piece (b : Board) (piece : Piece) (turn : Side) :
    Except String Board :=
  if piece.side = turn then
    match (b.get_piece piece.row piece.col).perish true with
    | Except.error e => Except.error e
    | Except.ok _ =>
        Except.ok (updateBoard b piece.row piece.col
          (Piece.start Side.empty none piece.row piece.col))
  else Except.ok b

/-- `Board.move_piece`.  On a King capture the raise happens before any
mutation, so the error carries the untouched board.  Otherwise the
destination square receives the source piece, the source square becomes a
positioned `Empty`, and the moved piece's position is updated. -/
def Board.move_piece (b : Board) (source dest : Piece) :
    Except (String × Board) (Board × Bool) :=
  if source.move_is_valid dest = false then Except.ok (b, false)
  else
    match (b.get_piece dest.row dest.col).perish false with
    | Except.error msg => Except.error (msg, b)
    | Except.ok _ =>
        let b1 := updateBoard b dest.row dest.col source
        let b2 := updateBoard b1 source.row source.col
          (Piece.start Side.empty none source.row source.col)
        let b3 := updateBoard b2 dest.row dest.col
          (source.set_position dest.row dest.col)
        Except.ok (b3, true)

/-- One square of a tick pass: replace the piece at `pos` by its ticked
version, neighbours read from the board as mutated so far. -/
def tickStep (current_turn : Side) (update_counters : Bool) (acc : Board)
    (pos : Fin 8 × Fin 8) : Board :=
  updateBoard acc pos.1 pos.2
    ((acc.get_piece pos.1 pos.2).tick
      (acc.get_surrounding_pieces (acc.get_piece pos.1 pos.2))
      current_turn update_counters)

/-- One full `tick` pass over `get_pieces()`, mutating square by square in
row-major order exactly as the Python loop does. -/
def tickAll (b : Board) (current_turn : Side) (update_counters : Bool) : Board :=
  allPositions.foldl (tickStep current_turn update_counters) b

/-- The column labels `a`..`h`. -/
def colLabel (c : Fin 8) : String :=
  match c.val with
  | 0 => "a"
  | 1 => "b"
  | 2 => "c"
  | 3 => "d"
  | 4 => "e"
  | 5 => "f"
  | 6 => "g"
  | _ => "h"

/-- The textual move record appended to `recent_moves_str`. -/
def move_str (source dest : Piece) : String :=
  source.symbol ++ colLabel source.col ++ toString (source.row.val + 1) ++ "->"
    ++ dest.symbol ++ colLabel dest.col ++ toString (dest.row.val + 1)

/-- The seeded birth queue `[P,R,P,N,P,B,P,Q,P,B,P,N,P,R]` (the literal is
written twice in `Engine.__init__`, once per side). -/
def seedQueue : List String :=
  ["P", "R", "P", "N", "P", "B", "P", "Q", "P", "B", "P", "N", "P", "R"]

/-- Engine state: the fields of `Engine.__init__` that the game logic reads.
`selected_piece` is a reference to a board piece, represented by its square.
Display-only fields and pickled `recent_moves` object pairs are omitted. -/
structure Engine where
  board : Board
  cursor_row : Fin 8
  cursor_col : Fin 8
  white_birth_queue : List String
  black_birth_queue : List String
  selected_piece : Option (Fin 8 × Fin 8)
  current_turn : Side
  recent_moves_str : List String
  game_over_message : Option String

/-- `Engine.__init__`: fresh board, ticked once for White, White to move. -/
def Engine.start : Engine :=
  { board := tickAll startBoard Side.white true,
    cursor_row := 0, cursor_col := 0,
    white_birth_queue := seedQueue, black_birth_queue := seedQueue,
    selected_piece := none, current_turn := Side.white,
    recent_moves_str := [], game_over_message := none }

/-- `Engine.move_is_valid` in the `stockfish is None` configuration: on a
piece-level valid move the move record is appended and the move accepted. -/
def Engine.move_is_valid (e : Engine) (source dest : Piece) : Engine × Bool :=
  if source.move_is_valid dest then
    ({ e with recent_moves_str := e.recent_moves_str ++ [move_str source dest] }, true)
  else (e, false)

/-- `"black" if self.current_turn == "white" else "white"`. -/
def flipTurn (s : Side) : Side :=
  if s = Side.white then Side.black else Side.white

/-- The qualification test of the birth scan: an empty square whose birth
counter for the scanning colour is exactly 3. -/
def qualifies (b : Board) (turn : Side) (pos : Fin 8 × Fin 8) : Bool :=
  decide ((b.get_piece pos.1 pos.2).side = Side.empty ∧
    (if turn = Side.white then (b.get_piece pos.1 pos.2).birth_counter_white
     else (b.get_piece pos.1 pos.2).birth_counter_black) = 3)

/-- The placement body of the birth scan: pop the queue front, place the new
piece, push the popped symbol to the back.  (A pop from an empty queue or an
invalid symbol would raise in the source; both are unreachable because the
queues always hold the 14 seeded symbols, and then the state is returned
unchanged here.) -/
def placeStep (turn : Side) (st : Board × List String) (pos : Fin 8 × Fin 8) :
    Board × List String :=
  match st.2 with
  | [] => st
  | next :: rest =>
      match st.1.set_new_piece pos.1 pos.2 next turn with
      | Except.ok b2 => (b2, rest ++ [next])
      | Except.error _ => st

/-- One square of the birth scan: place exactly when the square qualifies on
the current board. -/
def birthStep (turn : Side) (st : Board × List String) (pos : Fin 8 × Fin 8) :
    Board × List String :=
  if qualifies st.1 turn pos then placeStep turn st pos else st

/-- Board component of a birth scan over `order` (the fold of `birthStep`). -/
def birthScanBoard (turn : Side) (order : List (Fin 8 × Fin 8))
    (st : Board × List String) : Board :=
  (order.foldl (birthStep turn) st).1

/-- Queue component of a birth scan over `order`. -/
def birthScanQueue (turn : Side) (order : List (Fin 8 × Fin 8))
    (st : Board × List String) : List String :=
  (order.foldl (birthStep turn) st).2

/-- Board component of an unconditional placement walk over `order`. -/
def placeScanBoard (turn : Side) (order : List (Fin 8 × Fin 8))
    (st : Board × List String) : Board :=
  (order.foldl (placeStep turn) st).1

/-- Queue component of an unconditional placement walk over `order`. -/
def placeScanQueue (turn : Side) (order : List (Fin 8 × Fin 8))
    (st : Board × List String) : List String :=
  (order.foldl (placeStep turn) st).2

/-- The Black birth scan order: `for i in reversed(range(8)): for j in range(8)`. -/
def blackScanOrder : List (Fin 8 × Fin 8) :=
  ((List.finRange 8).reverse).flatMap (fun i => (List.finRange 8).map (fun j => (i, j)))

/-- The birth pass of `Engine.update_state`: scan in the side's order and
spawn from that side's queue. -/
def birthPass (e : Engine) : Engine :=
  if e.current_turn = Side.white then
    { e with
      board := birthScanBoard Side.white allPositions (e.board, e.white_birth_queue),
      white_birth_queue :=
        birthScanQueue Side.white allPositions (e.board, e.white_birth_queue) }
  else if e.current_turn = Side.black then
    { e with
      board := birthScanBoard Side.black blackScanOrder (e.board, e.black_birth_queue),
      black_birth_queue :=
        birthScanQueue Side.black blackScanOrder (e.board, e.black_birth_queue) }
  else e

/-- One snapshot piece of the death pass: kill it when its `death_counter`
is 4; a raise from `kill_piece` escapes carrying the board as mutated so
far. -/
def deathStep (turn : Side) (acc : Except (String × Board) Board)
    (p : Piece) : Except (String × Board) Board :=
  match acc with
  | Except.error e => Except.error e
  | Except.ok bd =>
      if p.death_counter = 4 then
        match bd.kill_piece p turn with
        | Except.error msg => Except.error (msg, bd)
        | Except.ok bd2 => Except.ok bd2
      else Except.ok bd

/-- The death pass: iterate over the snapshot `get_pieces()` and kill every
piece whose `death_counter` is 4.  A King raise escapes with the board as
mutated so far (the King itself not yet removed). -/
def deathPass (b : Board) (turn : Side) : Except (String × Board) Board :=
  b.get_pieces.foldl (deathStep turn) (Except.ok b)

/-- The turn-resolution passes run after an accepted move: tick with
counters for the side whose turn begins, birth pass, death pass (whose King
raise is caught by `update_state`, shown here by the `false` result carrying
the game-over message and the board as mutated so far), and a final
indicator-refresh tick. -/
def resolveTurn (e2 : Engine) : Engine × Bool :=
  let e3 := { e2 with board := tickAll e2.board e2.current_turn true }
  let e4 := birthPass e3
  match deathPass e4.board e4.current_turn with
  | Except.error de =>
      ({ e4 with game_over_message := some de.1, board := de.2 }, false)
  | Except.ok b5 =>
      ({ e4 with board := tickAll b5 e4.current_turn false }, true)

/-- The abstract input commands `update_state` can receive from `main_loop`
(`esc` quits before reaching `update_state`; undo/redo swap whole pickled
states without calling it).  `sf` is the advisor request key, a no-op when no
advisor is installed. -/
inductive Key
  | up
  | down
  | left
  | right
  | enter
  | sf
  | other
deriving DecidableEq

/-- `Engine.update_state(key, stockfish=None)`: returns the updated engine
and whether a state change happened. -/
def Engine.update_state (e : Engine) (key : Key) : Engine × Bool :=
  match key with
  | Key.up => ({ e with cursor_row := e.cursor_row - 1 }, false)
  | Key.down => ({ e with cursor_row := e.cursor_row + 1 }, false)
  | Key.left => ({ e with cursor_col := e.cursor_col - 1 }, false)
  | Key.right => ({ e with cursor_col := e.cursor_col + 1 }, false)
  | Key.sf => (e, false)
  | Key.other => ({ e with selected_piece := none }, false)
  | Key.enter =>
    match e.selected_piece with
    | none =>
        if (e.board.get_piece e.cursor_row e.cursor_col).side = e.current_turn then
          ({ e with selected_piece := some (e.cursor_row, e.cursor_col) }, false)
        else (e, false)
    | some sel =>
        let source := e.board.get_piece sel.1 sel.2
        let dest := e.board.get_piece e.cursor_row e.cursor_col
        let mv := e.move_is_valid source dest
        if mv.2 then
          let e1 := mv.1
          match e1.board.move_piece source dest with
          | Except.error em =>
              ({ e1 with game_over_message := some em.1, board := em.2 }, false)
          | Except.ok okv =>
              resolveTurn { e1 with board := okv.1, selected_piece := none, current_turn := flipTurn e1.current_turn }
        else (e, false)

/-- Run the engine from the initial state on a sequence of inputs. -/
def run (keys : List Key) : Engine :=
  keys.foldl (fun e k => (e.update_state k).1) Engine.start

/-- The number of kings of one side on the board. -/
def kingInd (p : Piece) (s : Side) : Nat :=
  if p.side = s ∧ p.kind = some Kind.king then 1 else 0

/-- Total number of kings of side `s` on the board. -/
def kingCount (b : Board) (s : Side) : Nat :=
  ∑ pos : Fin 8 × Fin 8, kingInd (b.get_piece pos.1 pos.2) s

/-- Every piece object on the board records its own square, the invariant
maintained by the `set_position` discipline of the source. -/
def posInv (b : Board) : Prop :=
  ∀ i j : Fin 8, (b.get_piece i j).row = i ∧ (b.get_piece i j).col = j

/-- One birth-queue step: `pop(0)` then `append`. -/
def rotate1 (q : List String) : List String :=
  match q with
  | [] => []
  | x :: r => r ++ [x]

/-- `n` birth-queue steps. -/
def rotateN (q : List String) : Nat → List String
  | 0 => q
  | n + 1 => rotate1 (rotateN q n)

/-- The kinds spawned by `n` consecutive births from queue `q`: the fronts
popped at each step. -/
def spawnSeq (q : List String) (n : Nat) : List String :=
  (List.range n).map (fun k => (rotateN q k).headD "")

/-- The squares of a scan that qualify for a birth on board `b` (empty, and
the scanning colour's birth counter exactly 3), in scan order. -/
def birthListSpec (b : Board) (turn : Side) (order : List (Fin 8 × Fin 8)) :
    List (Fin 8 × Fin 8) :=
  order.filter (qualifies b turn)

/-- Two-phase reference version of the birth pass, following the spec text:
first read off the qualifying squares from the board as it stands when the
pass starts, then walk that list placing pieces popped from the queue. -/
def birthPassSpec (e : Engine) : Engine :=
  if e.current_turn = Side.white then
    { e with
      board := placeScanBoard Side.white
        (birthListSpec e.board Side.white allPositions)
        (e.board, e.white_birth_queue),
      white_birth_queue := placeScanQueue Side.white
        (birthListSpec e.board Side.white allPositions)
        (e.board, e.white_birth_queue) }
  else if e.current_turn = Side.black then
    { e with
      board := placeScanBoard Side.black
        (birthListSpec e.board Side.black blackScanOrder)
        (e.board, e.black_birth_queue),
      black_birth_queue := placeScanQueue Side.black
        (birthListSpec e.board Side.black blackScanOrder)
        (e.board, e.black_birth_queue) }
  else e

/-- Rank-then-file ascending order on squares (White's scan). -/
def rankFileAsc (p q : Fin 8 × Fin 8) : Prop :=
  p.1.val < q.1.val ∨ (p.1.val = q.1.val ∧ p.2.val < q.2.val)

/-- Rank descending, file ascending order on squares (Black's scan). -/
def rankDescFileAsc (p q : Fin 8 × Fin 8) : Prop :=
  q.1.val < p.1.val ∨ (p.1.val = q.1.val ∧ p.2.val < q.2.val)

/-- The 4-byte turn message of `main_loop`: 2 bytes of input code and the 2
trailing bytes of the move-log hash.  The cryptographic hash itself is
external library code (`hashlib.sha256` over the pickled log), so it enters
the model as a parameter `h` into the 2-byte space. -/
def sendMsg (h : List String → Fin 65536) (code : Fin 65536)
    (log : List String) : Fin 65536 × Fin 65536 :=
  (code, h log)

/-- The receiving peer's `assert`: the transmitted hash bytes must equal the
hash of the receiver's own move log.  `false` means a detected mismatch. -/
def hashCheck (h : List String → Fin 65536) (msg : Fin 65536 × Fin 65536)
    (localLog : List String) : Bool :=
  decide (msg.2 = h localLog)

/-- Inputs that reach the state just after White captures the Black King:
select the White queen (d1), move the cursor onto the Black king (e8), and
confirm; the capture raises the game-over, leaving the queen selected.  The
trailing cursor moves park the cursor on the empty square e5. -/
def C1keys : List Key :=
  [Key.right, Key.right, Key.right, Key.enter, Key.right,
   Key.down, Key.down, Key.down, Key.down, Key.down, Key.down, Key.down,
   Key.enter, Key.up, Key.up, Key.up]

/-- The global invariant maintained by `update_state`: every piece records
its own square, each side has at most one King, and each birth queue is a
rotation of the seed (hence never contains the King symbol). -/
def EngineInv (e : Engine) : Prop :=
  posInv e.board ∧ kingCount e.board Side.white ≤ 1 ∧
    kingCount e.board Side.black ≤ 1 ∧
    e.white_birth_queue.IsRotated seedQueue ∧
    e.black_birth_queue.IsRotated seedQueue

instance (p q : Fin 8 × Fin 8) : Decidable (rankFileAsc p q) := by
  unfold rankFileAsc
  infer_instance

instance (p q : Fin 8 × Fin 8) : Decidable (rankDescFileAsc p q) := by
  unfold rankDescFileAsc
  infer_instance

instance (b : Board) : Decidable (posInv b) := by
  unfold posInv
  infer_instance

theorem get_piece_update_same (b : Board) (r c : Fin 8) (p : Piece) :
    (updateBoard b r c p).get_piece r c = p := by
  simp [updateBoard, Board.get_piece, Mathlib.Vector.get_set_same]

theorem get_piece_update_other (b : Board) (r c i j : Fin 8) (p : Piece)
    (h : ¬(i = r ∧ j = c)) :
    (updateBoard b r c p).get_piece i j = b.get_piece i j := by
  by_cases hi : i = r
  · subst hi
    have hj : c ≠ j := fun hc => h ⟨rfl, hc.symm⟩
    simp [updateBoard, Board.get_piece, Mathlib.Vector.get_set_same,
      Mathlib.Vector.get_set_of_ne hj]
  · have hir : r ≠ i := fun hc => hi hc.symm
    simp [updateBoard, Board.get_piece, Mathlib.Vector.get_set_of_ne hir]

theorem board_ext (b b2 : Board)
    (h : ∀ i j : Fin 8, b.get_piece i j = b2.get_piece i j) : b = b2 := by
  apply Mathlib.Vector.ext
  intro i
  apply Mathlib.Vector.ext
  intro j
  exact h i j

theorem tick_side (p : Piece) (ns : List Piece) (t : Side) (u : Bool) :
    (p.tick ns t u).side = p.side := by
  simp only [Piece.tick]
  split_ifs <;> rfl

theorem tick_kind (p : Piece) (ns : List Piece) (t : Side) (u : Bool) :
    (p.tick ns t u).kind = p.kind := by
  simp only [Piece.tick]
  split_ifs <;> rfl

theorem tick_row (p : Piece) (ns : List Piece) (t : Side) (u : Bool) :
    (p.tick ns t u).row = p.row := by
  simp only [Piece.tick]
  split_ifs <;> rfl

theorem tick_col (p : Piece) (ns : List Piece) (t : Side) (u : Bool) :
    (p.tick ns t u).col = p.col := by
  simp only [Piece.tick]
  split_ifs <;> rfl

theorem qualifies_congr (b1 b2 : Board) (turn : Side) (pos : Fin 8 × Fin 8)
    (h : b1.get_piece pos.1 pos.2 = b2.get_piece pos.1 pos.2) :
    qualifies b1 turn pos = qualifies b2 turn pos := by
  unfold qualifies
  rw [h]

theorem placeStep_board_other (turn : Side) (st : Board × List String)
    (pos : Fin 8 × Fin 8) (i j : Fin 8) (h : ¬(i = pos.1 ∧ j = pos.2)) :
    (placeStep turn st pos).1.get_piece i j = st.1.get_piece i j := by
  unfold placeStep
  cases st.2 with
  | nil => rfl
  | cons next rest =>
      simp only []
      unfold Board.set_new_piece
      cases symToKind next with
      | some k => exact get_piece_update_other _ _ _ _ _ _ h
      | none => rfl

theorem birthStep_of_qualifies (turn : Side) (st : Board × List String)
    (pos : Fin 8 × Fin 8) (h : qualifies st.1 turn pos = true) :
    birthStep turn st pos = placeStep turn st pos := by
  unfold birthStep
  rw [h]
  rfl

theorem birthStep_of_not_qualifies (turn : Side) (st : Board × List String)
    (pos : Fin 8 × Fin 8) (h : qualifies st.1 turn pos = false) :
    birthStep turn st pos = st := by
  unfold birthStep
  rw [h]
  rfl

theorem foldl_birthStep_eq_spec (turn : Side) (b : Board) :
    ∀ (l : List (Fin 8 × Fin 8)) (st : Board × List String),
      l.Nodup →
      (∀ pos ∈ l, st.1.get_piece pos.1 pos.2 = b.get_piece pos.1 pos.2) →
      l.foldl (birthStep turn) st =
        (l.filter (qualifies b turn)).foldl (placeStep turn) st := by
  intro l
  induction l with
  | nil => intro st _ _; rfl
  | cons pos rest ih =>
      intro st hnd hagree
      have hpos : st.1.get_piece pos.1 pos.2 = b.get_piece pos.1 pos.2 :=
        hagree pos (List.mem_cons_self pos rest)
      have hq : qualifies st.1 turn pos = qualifies b turn pos :=
        qualifies_congr st.1 b turn pos hpos
      have hnd' : rest.Nodup := (List.nodup_cons.mp hnd).2
      have hninrest : pos ∉ rest := (List.nodup_cons.mp hnd).1
      cases hqb : qualifies b turn pos with
      | true =>
          have hstep : birthStep turn st pos = placeStep turn st pos :=
            birthStep_of_qualifies turn st pos (hq.trans hqb)
          have hagree' : ∀ q ∈ rest,
              (placeStep turn st pos).1.get_piece q.1 q.2 = b.get_piece q.1 q.2 := by
            intro q hqmem
            have hne : ¬(q.1 = pos.1 ∧ q.2 = pos.2) := by
              intro hc
              exact hninrest (by
                have : q = pos := Prod.ext hc.1 hc.2
                exact this ▸ hqmem)
            rw [placeStep_board_other turn st pos q.1 q.2 hne]
            exact hagree q (List.mem_cons_of_mem pos hqmem)
          calc (pos :: rest).foldl (birthStep turn) st
              = rest.foldl (birthStep turn) (placeStep turn st pos) := by
                rw [List.foldl_cons, hstep]
            _ = (rest.filter (qualifies b turn)).foldl (placeStep turn)
                  (placeStep turn st pos) := ih (placeStep turn st pos) hnd' hagree'
            _ = ((pos :: rest).filter (qualifies b turn)).foldl (placeStep turn) st := by
                rw [List.filter_cons_of_pos hqb, List.foldl_cons]
      | false =>
          have hstep : birthStep turn st pos = st :=
            birthStep_of_not_qualifies turn st pos (hq.trans hqb)
          have hagree' : ∀ q ∈ rest,
              st.1.get_piece q.1 q.2 = b.get_piece q.1 q.2 :=
            fun q hqmem => hagree q (List.mem_cons_of_mem pos hqmem)
          calc (pos :: rest).foldl (birthStep turn) st
              = rest.foldl (birthStep turn) st := by rw [List.foldl_cons, hstep]
            _ = (rest.filter (qualifies b turn)).foldl (placeStep turn) st :=
                ih st hnd' hagree'
            _ = ((pos :: rest).filter (qualifies b turn)).foldl (placeStep turn) st := by
                rw [List.filter_cons_of_neg (by simp [hqb])]

theorem birthPass_eq_spec (e : Engine) : birthPass e = birthPassSpec e := by
  unfold birthPass birthPassSpec birthListSpec birthScanBoard birthScanQueue
  unfold placeScanBoard placeScanQueue
  have hw := foldl_birthStep_eq_spec Side.white e.board allPositions
    (e.board, e.white_birth_queue) (by decide) (fun pos _ => rfl)
  have hb := foldl_birthStep_eq_spec Side.black e.board blackScanOrder
    (e.board, e.black_birth_queue) (by decide) (fun pos _ => rfl)
  simp only [hw, hb]

/-- C4: the birth pass scans ascending rank-then-file on White's turn and
descending rank (8 to 1), ascending file on Black's turn, covering all 64
squares; and the pass equals the two-phase reference pass that first reads
off the qualifying squares (Empty with the scanning colour's birth counter
exactly 3) from the board as it stood when the pass started and then places
queue fronts down that list, pushing each popped kind to the back — hence
pieces placed earlier in the pass do not change which of the remaining
scanned squares give birth. -/
theorem C4_birth_pass_order_and_noninterference :
    (List.Pairwise rankFileAsc allPositions ∧
      (∀ pos : Fin 8 × Fin 8, pos ∈ allPositions)) ∧
    (List.Pairwise rankDescFileAsc blackScanOrder ∧
      (∀ pos : Fin 8 × Fin 8, pos ∈ blackScanOrder)) ∧
    (∀ e : Engine, birthPass e = birthPassSpec e) :=
  ⟨⟨by decide, by decide⟩, ⟨by decide, by decide⟩, birthPass_eq_spec⟩

/-- C2: a counter-updating tick of an Empty square for `current_turn = c`
increments colour `c`'s birth counter by exactly 1 when the count of
neighbouring pieces of colour `c` is exactly 3 and resets it to 0 otherwise
(whatever its previous value), and leaves the other colour's birth counter
unchanged. -/
theorem C2_empty_square_birth_counters (p : Piece) (ns : List Piece)
    (hside : p.side = Side.empty) :
    ((p.tick ns Side.white true).birth_counter_white =
        (if countSide ns Side.white = 3 then p.birth_counter_white + 1 else 0) ∧
      (p.tick ns Side.white true).birth_counter_black = p.birth_counter_black) ∧
    ((p.tick ns Side.black true).birth_counter_black =
        (if countSide ns Side.black = 3 then p.birth_counter_black + 1 else 0) ∧
      (p.tick ns Side.black true).birth_counter_white = p.birth_counter_white) := by
  refine ⟨⟨?_, ?_⟩, ⟨?_, ?_⟩⟩ <;>
    simp only [Piece.tick, hside] <;> split_ifs <;> simp_all

/-- Witness for C2 at a concrete Empty square with three White neighbours. -/
theorem C2_witness :
    ((Piece.start Side.empty none 3 3).tick
        [Piece.start Side.white (some Kind.pawn) 2 2,
         Piece.start Side.white (some Kind.pawn) 2 3,
         Piece.start Side.white (some Kind.pawn) 2 4] Side.white true).birth_counter_white =
      (if countSide [Piece.start Side.white (some Kind.pawn) 2 2,
         Piece.start Side.white (some Kind.pawn) 2 3,
         Piece.start Side.white (some Kind.pawn) 2 4] Side.white = 3
       then (Piece.start Side.empty none 3 3).birth_counter_white + 1 else 0) :=
  (C2_empty_square_birth_counters _ _ rfl).1.1

/-- C3: a counter-updating tick of an occupied square whose side is the
current turn counts same-side neighbours only, increments `death_counter`
when that count is below 2 or above 3 and resets it to 0 when the count is
in [2,3]; an occupied square of the other side has all of its counters left
unchanged. -/
theorem C3_death_counter_tick (p : Piece) (ns : List Piece) (turn : Side)
    (hocc : p.side ≠ Side.empty) :
    (p.side = turn →
      (p.tick ns turn true).death_counter =
        (if countSide ns p.side < 2 ∨ countSide ns p.side > 3
         then p.death_counter + 1 else 0) ∧
      (p.tick ns turn true).birth_counter_white = p.birth_counter_white ∧
      (p.tick ns turn true).birth_counter_black = p.birth_counter_black) ∧
    (p.side ≠ turn →
      (p.tick ns turn true).death_counter = p.death_counter ∧
      (p.tick ns turn true).birth_counter_white = p.birth_counter_white ∧
      (p.tick ns turn true).birth_counter_black = p.birth_counter_black) := by
  constructor
  · intro hpt
    subst hpt
    cases hps : p.side with
    | empty => exact absurd hps hocc
    | white =>
        refine ⟨?_, ?_, ?_⟩ <;> simp [Piece.tick, hps] <;>
          try (split_ifs <;> rfl)
    | black =>
        refine ⟨?_, ?_, ?_⟩ <;> simp [Piece.tick, hps] <;>
          try (split_ifs <;> rfl)
  · intro hpt
    have hne : ¬ turn = p.side := fun hc => hpt hc.symm
    refine ⟨?_, ?_, ?_⟩ <;> simp [Piece.tick, hocc, hne]

/-- Witness for C3 at a concrete White piece with one same-side neighbour
(underpopulation) on White's turn, and at a Black piece on White's turn. -/
theorem C3_witness :
    ((Piece.start Side.white (some Kind.pawn) 4 4).tick
        [Piece.start Side.white (some Kind.pawn) 3 3] Side.white true).death_counter =
      (if countSide [Piece.start Side.white (some Kind.pawn) 3 3]
            (Piece.start Side.white (some Kind.pawn) 4 4).side < 2 ∨
          countSide [Piece.start Side.white (some Kind.pawn) 3 3]
            (Piece.start Side.white (some Kind.pawn) 4 4).side > 3
       then (Piece.start Side.white (some Kind.pawn) 4 4).death_counter + 1 else 0) ∧
    ((Piece.start Side.black (some Kind.pawn) 4 4).tick
        [Piece.start Side.white (some Kind.pawn) 3 3] Side.white true).death_counter =
      (Piece.start Side.black (some Kind.pawn) 4 4).death_counter :=
  ⟨((C3_death_counter_tick (Piece.start Side.white (some Kind.pawn) 4 4)
      [Piece.start Side.white (some Kind.pawn) 3 3] Side.white (by decide)).1 rfl).1,
   ((C3_death_counter_tick (Piece.start Side.black (some Kind.pawn) 4 4)
      [Piece.start Side.white (some Kind.pawn) 3 3] Side.white (by decide)).2 (by decide)).1⟩

theorem rotate1_eq_rotate (l : List String) : rotate1 l = l.rotate 1 := by
  cases l with
  | nil => rfl
  | cons x r => rw [rotate1, List.rotate_cons_succ, List.rotate_zero]

theorem rotateN_eq_rotate (q : List String) (n : Nat) : rotateN q n = q.rotate n := by
  induction n with
  | zero => rw [rotateN, List.rotate_zero]
  | succ m ih => rw [rotateN, ih, rotate1_eq_rotate, List.rotate_rotate]

theorem rotateN_length (q : List String) (n : Nat) :
    (rotateN q n).length = q.length := by
  rw [rotateN_eq_rotate, List.length_rotate]

theorem isRotated_rotateN (q : List String) (n : Nat) :
    q.IsRotated (rotateN q n) :=
  ⟨n, (rotateN_eq_rotate q n).symm⟩

theorem rotateN_add (q : List String) (m n : Nat) :
    rotateN (rotateN q m) n = rotateN q (m + n) := by
  induction n with
  | zero => rfl
  | succ k ih =>
      rw [rotateN, ih]
      show rotateN q (m + k + 1) = rotateN q (m + (k + 1))
      rw [Nat.add_assoc]

theorem placeStep_queue (turn : Side) (st : Board × List String)
    (pos : Fin 8 × Fin 8) (next : String) (rest : List String)
    (hq : st.2 = next :: rest) (hk : (symToKind next).isSome = true) :
    (placeStep turn st pos).2 = rest ++ [next] := by
  unfold placeStep
  rw [hq]
  unfold Board.set_new_piece
  cases hsk : symToKind next with
  | some k => simp only [hsk]
  | none => rw [hsk] at hk; simp at hk

theorem birthStep_queue_rotates (turn : Side) (st : Board × List String)
    (pos : Fin 8 × Fin 8) (next : String) (rest : List String)
    (hq : st.2 = next :: rest) (hk : (symToKind next).isSome = true)
    (hqual : qualifies st.1 turn pos = true) :
    (birthStep turn st pos).2 = rest ++ [next] := by
  rw [birthStep_of_qualifies turn st pos hqual]
  exact placeStep_queue turn st pos next rest hq hk

theorem kill_piece_other_side (b : Board) (p : Piece) (turn : Side)
    (h : p.side ≠ turn) : b.kill_piece p turn = Except.ok b := by
  unfold Board.kill_piece
  rw [if_neg h]

theorem kill_piece_king (b : Board) (p : Piece) (turn : Side)
    (hside : p.side = turn)
    (hk : (b.get_piece p.row p.col).kind = some Kind.king) :
    b.kill_piece p turn =
      Except.error (perishMessage (b.get_piece p.row p.col).side true) := by
  unfold Board.kill_piece
  rw [if_pos hside]
  unfold Piece.perish
  rw [if_pos hk]

theorem kill_piece_removes (b : Board) (p : Piece) (turn : Side)
    (hside : p.side = turn)
    (hk : (b.get_piece p.row p.col).kind ≠ some Kind.king) :
    b.kill_piece p turn =
      Except.ok (updateBoard b p.row p.col
        (Piece.start Side.empty none p.row p.col)) := by
  unfold Board.kill_piece
  rw [if_pos hside]
  unfold Piece.perish
  rw [if_neg hk]

theorem move_is_valid_ne_square (b : Board) (sr sc dr dc : Fin 8)
    (hv : (b.get_piece sr sc).move_is_valid (b.get_piece dr dc) = true) :
    ¬(sr = dr ∧ sc = dc) := by
  rintro ⟨rfl, rfl⟩
  simp [Piece.move_is_valid] at hv

theorem move_piece_king_capture (b : Board) (source dest : Piece)
    (hv : source.move_is_valid dest = true)
    (hk : (b.get_piece dest.row dest.col).kind = some Kind.king) :
    b.move_piece source dest =
      Except.error (perishMessage (b.get_piece dest.row dest.col).side false, b) := by
  unfold Board.move_piece
  rw [hv, if_neg (by decide)]
  unfold Piece.perish
  rw [if_pos hk]

theorem move_piece_ok_char (b : Board) (source dest : Piece)
    (hv : source.move_is_valid dest = true)
    (hk : (b.get_piece dest.row dest.col).kind ≠ some Kind.king) :
    b.move_piece source dest =
      Except.ok (updateBoard
        (updateBoard (updateBoard b dest.row dest.col source)
          source.row source.col (Piece.start Side.empty none source.row source.col))
        dest.row dest.col (source.set_position dest.row dest.col), true) := by
  unfold Board.move_piece
  rw [hv, if_neg (by decide)]
  unfold Piece.perish
  rw [if_neg hk]

/-- C6 counterexample: for the White King on the initial board, with White
acting, `kill_piece` raises the perish game-over but never replaces the
square with Empty — it produces no successful board at all, so the claim's
"replaces that piece's square with Empty" is false for a King. -/
theorem C6_counterexample :
    (startBoard.get_piece 0 4).side = Side.white ∧
    (startBoard.get_piece 0 4).kind = some Kind.king ∧
    startBoard.kill_piece (startBoard.get_piece 0 4) Side.white =
      Except.error (perishMessage Side.white true) ∧
    (startBoard.kill_piece (startBoard.get_piece 0 4) Side.white).isOk = false :=
  ⟨by decide, by decide, by rfl, by decide⟩

/-- C6 (amended): `kill_piece` is a no-op when `piece.side` differs from the
acting side; when they agree it raises the life-cycle game-over if the
occupant is a King (leaving the square untouched, since the raise precedes
the removal), and otherwise replaces the square with a positioned Empty. -/
theorem C6_kill_piece_contract (b : Board) (p : Piece) (turn : Side) :
    (p.side ≠ turn → b.kill_piece p turn = Except.ok b) ∧
    (p.side = turn → (b.get_piece p.row p.col).kind = some Kind.king →
      b.kill_piece p turn =
        Except.error (perishMessage (b.get_piece p.row p.col).side true)) ∧
    (p.side = turn → (b.get_piece p.row p.col).kind ≠ some Kind.king →
      b.kill_piece p turn =
        Except.ok (updateBoard b p.row p.col
          (Piece.start Side.empty none p.row p.col))) :=
  ⟨kill_piece_other_side b p turn,
   fun hs hk => kill_piece_king b p turn hs hk,
   fun hs hk => kill_piece_removes b p turn hs hk⟩

/-- Witness for C6: on the initial board, killing the a2 White pawn as White
clears its square, and killing the a8 Black rook as White is a no-op. -/
theorem C6_witness :
    startBoard.kill_piece (startBoard.get_piece 1 0) Side.white =
      Except.ok (updateBoard startBoard (startBoard.get_piece 1 0).row
        (startBoard.get_piece 1 0).col
        (Piece.start Side.empty none (startBoard.get_piece 1 0).row
          (startBoard.get_piece 1 0).col)) ∧
    startBoard.kill_piece (startBoard.get_piece 7 0) Side.white =
      Except.ok startBoard :=
  ⟨(C6_kill_piece_contract startBoard (startBoard.get_piece 1 0) Side.white).2.2
      (by decide) (by decide),
   (C6_kill_piece_contract startBoard (startBoard.get_piece 7 0) Side.white).1
      (by decide)⟩

/-- C7: on a board whose pieces record their own squares, an accepted move
whose destination holds a King raises the capture game-over and leaves every
square (source and destination included) exactly as before the call; every
other accepted move discards the destination occupant, puts the moving piece
at the destination coordinates, and leaves a positioned Empty at the source,
touching no other square. -/
theorem C7_move_piece_contract (b : Board) (sr sc dr dc : Fin 8)
    (hpos : posInv b) :
    ((b.get_piece sr sc).move_is_valid (b.get_piece dr dc) = true →
      (b.get_piece dr dc).kind = some Kind.king →
      b.move_piece (b.get_piece sr sc) (b.get_piece dr dc) =
        Except.error (perishMessage (b.get_piece dr dc).side false, b)) ∧
    ((b.get_piece sr sc).move_is_valid (b.get_piece dr dc) = true →
      (b.get_piece dr dc).kind ≠ some Kind.king →
      ∃ b2 : Board,
        b.move_piece (b.get_piece sr sc) (b.get_piece dr dc) =
          Except.ok (b2, true) ∧
        b2.get_piece dr dc = (b.get_piece sr sc).set_position dr dc ∧
        b2.get_piece sr sc = Piece.start Side.empty none sr sc ∧
        ∀ i j : Fin 8, ¬(i = dr ∧ j = dc) → ¬(i = sr ∧ j = sc) →
          b2.get_piece i j = b.get_piece i j) := by
  have hdr : (b.get_piece dr dc).row = dr := (hpos dr dc).1
  have hdc : (b.get_piece dr dc).col = dc := (hpos dr dc).2
  have hsr : (b.get_piece sr sc).row = sr := (hpos sr sc).1
  have hsc : (b.get_piece sr sc).col = sc := (hpos sr sc).2
  constructor
  · intro hv hk
    have h := move_piece_king_capture b (b.get_piece sr sc) (b.get_piece dr dc)
      hv (by rw [hdr, hdc]; exact hk)
    rw [hdr, hdc] at h
    exact h
  · intro hv hk
    have hne : ¬(sr = dr ∧ sc = dc) := move_is_valid_ne_square b sr sc dr dc hv
    have h := move_piece_ok_char b (b.get_piece sr sc) (b.get_piece dr dc)
      hv (by rw [hdr, hdc]; exact hk)
    rw [hdr, hdc, hsr, hsc] at h
    refine ⟨_, h, ?_, ?_, ?_⟩
    · rw [get_piece_update_same]
    · rw [get_piece_update_other _ _ _ _ _ _ hne, get_piece_update_same]
    · intro i j hid his
      rw [get_piece_update_other _ _ _ _ _ _ hid,
        get_piece_update_other _ _ _ _ _ _ his,
        get_piece_update_other _ _ _ _ _ _ hid]

/-- Witness for C7: on the initial board the White queen capturing the Black
king raises the capture game-over with the board untouched, and the a2 pawn
moving to the empty a4 square produces the described relocation. -/
theorem C7_witness :
    (startBoard.move_piece (startBoard.get_piece 0 3) (startBoard.get_piece 7 4) =
      Except.error (perishMessage (startBoard.get_piece 7 4).side false, startBoard)) ∧
    (∃ b2 : Board,
      startBoard.move_piece (startBoard.get_piece 1 0) (startBoard.get_piece 3 0) =
        Except.ok (b2, true) ∧
      b2.get_piece 3 0 = (startBoard.get_piece 1 0).set_position 3 0 ∧
      b2.get_piece 1 0 = Piece.start Side.empty none 1 0 ∧
      ∀ i j : Fin 8, ¬(i = 3 ∧ j = 0) → ¬(i = 1 ∧ j = 0) →
        b2.get_piece i j = startBoard.get_piece i j) :=
  ⟨(C7_move_piece_contract startBoard 0 3 7 4 (by decide)).1 (by decide) (by decide),
   (C7_move_piece_contract startBoard 1 0 3 0 (by decide)).2 (by decide) (by decide)⟩

/-- C10: an accepted (non-King-capturing) move carries the moving piece's
`death_counter` and both birth counters over to the destination square
unchanged, along with its side and kind; only `row` and `col` change, to the
destination coordinates. -/
theorem C10_move_preserves_counters (b : Board) (sr sc dr dc : Fin 8)
    (hpos : posInv b)
    (hv : (b.get_piece sr sc).move_is_valid (b.get_piece dr dc) = true)
    (hk : (b.get_piece dr dc).kind ≠ some Kind.king) :
    ∃ b2 : Board,
      b.move_piece (b.get_piece sr sc) (b.get_piece dr dc) =
        Except.ok (b2, true) ∧
      (b2.get_piece dr dc).death_counter = (b.get_piece sr sc).death_counter ∧
      (b2.get_piece dr dc).birth_counter_white =
        (b.get_piece sr sc).birth_counter_white ∧
      (b2.get_piece dr dc).birth_counter_black =
        (b.get_piece sr sc).birth_counter_black ∧
      (b2.get_piece dr dc).side = (b.get_piece sr sc).side ∧
      (b2.get_piece dr dc).kind = (b.get_piece sr sc).kind ∧
      (b2.get_piece dr dc).row = dr ∧ (b2.get_piece dr dc).col = dc := by
  have hdr : (b.get_piece dr dc).row = dr := (hpos dr dc).1
  have hdc : (b.get_piece dr dc).col = dc := (hpos dr dc).2
  have hsr : (b.get_piece sr sc).row = sr := (hpos sr sc).1
  have hsc : (b.get_piece sr sc).col = sc := (hpos sr sc).2
  have h := move_piece_ok_char b (b.get_piece sr sc) (b.get_piece dr dc)
    hv (by rw [hdr, hdc]; exact hk)
  rw [hdr, hdc, hsr, hsc] at h
  refine ⟨_, h, ?_, ?_, ?_, ?_, ?_, ?_, ?_⟩ <;>
    rw [get_piece_update_same] <;> rfl

/-- Witness for C10: the a2 White pawn moving to the empty a4 square keeps
all its counters. -/
theorem C10_witness :
    ∃ b2 : Board,
      startBoard.move_piece (startBoard.get_piece 1 0) (startBoard.get_piece 3 0) =
        Except.ok (b2, true) ∧
      (b2.get_piece 3 0).death_counter = (startBoard.get_piece 1 0).death_counter ∧
      (b2.get_piece 3 0).birth_counter_white =
        (startBoard.get_piece 1 0).birth_counter_white ∧
      (b2.get_piece 3 0).birth_counter_black =
        (startBoard.get_piece 1 0).birth_counter_black ∧
      (b2.get_piece 3 0).side = (startBoard.get_piece 1 0).side ∧
      (b2.get_piece 3 0).kind = (startBoard.get_piece 1 0).kind ∧
      (b2.get_piece 3 0).row = 3 ∧ (b2.get_piece 3 0).col = 0 :=
  C10_move_preserves_counters startBoard 1 0 3 0 (by decide) (by decide) (by decide)

/-- C9 counterexample: the per-turn check compares only 2 hash bytes, so no
hash function into that space can detect every corruption of the move log;
the universally quantified detection claim is false. -/
theorem C9_counterexample :
    ¬ (∀ (h : List String → Fin 65536) (code : Fin 65536)
          (log log2 : List String),
        log ≠ log2 → hashCheck h (sendMsg h code log) log2 = false) := by
  intro hall
  have hbad := hall (fun _ => 0) 0 ["a"] [] (List.cons_ne_nil "a" [])
  simp [hashCheck, sendMsg] at hbad

/-- C9 (amended): the hash bytes are a function of the move log, so peers
with element-for-element equal logs (in particular two replicas driven by
the same input sequence) never report a mismatch; a mismatch is reported
exactly when the 2-byte hashes differ, and because only 2 bytes are
compared, for every hash function there are distinct logs (a corruption)
that pass the check undetected. -/
theorem C9_sync_hash (h : List String → Fin 65536) (code : Fin 65536)
    (log log2 : List String) :
    (log = log2 → hashCheck h (sendMsg h code log) log2 = true) ∧
    (hashCheck h (sendMsg h code log) log2 = false ↔ h log ≠ h log2) ∧
    (∀ keys : List Key,
      hashCheck h (sendMsg h code (run keys).recent_moves_str)
        (run keys).recent_moves_str = true) ∧
    (∃ l l2 : List String, l ≠ l2 ∧ hashCheck h (sendMsg h code l) l2 = true) := by
  refine ⟨?_, ?_, ?_, ?_⟩
  · rintro rfl
    simp [hashCheck, sendMsg]
  · simp [hashCheck, sendMsg]
  · intro keys
    simp [hashCheck, sendMsg]
  · obtain ⟨a, b, hab, hfab⟩ := Fintype.exists_ne_map_eq_of_card_lt
      (fun n : Fin 65537 => h (List.replicate n.val "x"))
      (by simp only [Fintype.card_fin]; omega)
    refine ⟨List.replicate a.val "x", List.replicate b.val "x", ?_, ?_⟩
    · intro hc
      have hlen : a.val = b.val := by
        have hl := congrArg List.length hc
        simpa using hl
      exact hab (Fin.ext hlen)
    · simp only [hashCheck, sendMsg]
      exact decide_eq_true hfab

/-- Witness for C9: equal concrete logs pass the check. -/
theorem C9_witness :
    hashCheck (fun _ => (0 : Fin 65536))
      (sendMsg (fun _ => (0 : Fin 65536)) 0 ["Pa2->  a4"]) ["Pa2->  a4"] = true :=
  (C9_sync_hash (fun _ => (0 : Fin 65536)) 0 ["Pa2->  a4"] ["Pa2->  a4"]).1 rfl

set_option maxRecDepth 200000

/-- C1 (code-bug exhibit): run the capture of the Black King by the White
queen; `game_over_message` is set, yet a further enter input is accepted as
a normal move: `update_state` reports a state change, executes the selected
queen's move to the empty e5 square, flips the turn and runs turn
resolution, with the game-over message still set.  Input is not frozen. -/
theorem C1_moves_accepted_after_game_over :
    (run C1keys).game_over_message =
      some "Black king was captured, white wins!" ∧
    (run C1keys).current_turn = Side.white ∧
    ((run C1keys).update_state Key.enter).2 = true ∧
    ((run C1keys).update_state Key.enter).1.current_turn = Side.black ∧
    (((run C1keys).update_state Key.enter).1.board.get_piece 4 4).kind =
      some Kind.queen ∧
    ((run C1keys).update_state Key.enter).1.game_over_message =
      some "Black king was captured, white wins!" :=
  ⟨by decide, by decide, by decide, by decide, by decide, by decide⟩

theorem kingInd_kind_ne (p : Piece) (s : Side) (h : p.kind ≠ some Kind.king) :
    kingInd p s = 0 := by
  unfold kingInd
  rw [if_neg]
  intro hc
  exact h hc.2

theorem kingInd_set_position (p : Piece) (r c : Fin 8) (s : Side) :
    kingInd (p.set_position r c) s = kingInd p s := rfl

theorem kingCount_update (b : Board) (r c : Fin 8) (p : Piece) (s : Side) :
    kingCount (updateBoard b r c p) s + kingInd (b.get_piece r c) s =
      kingCount b s + kingInd p s := by
  unfold kingCount
  rw [← Finset.add_sum_erase Finset.univ
      (fun pos : Fin 8 × Fin 8 => kingInd ((updateBoard b r c p).get_piece pos.1 pos.2) s)
      (Finset.mem_univ ((r, c) : Fin 8 × Fin 8)),
    ← Finset.add_sum_erase Finset.univ
      (fun pos : Fin 8 × Fin 8 => kingInd (b.get_piece pos.1 pos.2) s)
      (Finset.mem_univ ((r, c) : Fin 8 × Fin 8))]
  have hcong : (∑ pos ∈ Finset.univ.erase ((r, c) : Fin 8 × Fin 8),
      kingInd ((updateBoard b r c p).get_piece pos.1 pos.2) s) =
      ∑ pos ∈ Finset.univ.erase ((r, c) : Fin 8 × Fin 8),
        kingInd (b.get_piece pos.1 pos.2) s := by
    apply Finset.sum_congr rfl
    intro pos hpos
    have hne : pos ≠ (r, c) := Finset.ne_of_mem_erase hpos
    have hne2 : ¬(pos.1 = r ∧ pos.2 = c) := by
      intro hc
      exact hne (Prod.ext hc.1 hc.2)
    rw [get_piece_update_other _ _ _ _ _ _ hne2]
  rw [hcong, get_piece_update_same]
  dsimp only
  omega

theorem kingCount_congr (b b2 : Board) (s : Side)
    (h : ∀ i j : Fin 8, (b2.get_piece i j).side = (b.get_piece i j).side ∧
      (b2.get_piece i j).kind = (b.get_piece i j).kind) :
    kingCount b2 s = kingCount b s := by
  unfold kingCount
  apply Finset.sum_congr rfl
  intro pos _
  unfold kingInd
  rw [(h pos.1 pos.2).1, (h pos.1 pos.2).2]

theorem foldl_tickStep_pres (t : Side) (u : Bool) (b : Board) :
    ∀ (l : List (Fin 8 × Fin 8)) (acc : Board),
      (∀ i j : Fin 8,
        ((acc.get_piece i j).side = (b.get_piece i j).side ∧
          (acc.get_piece i j).kind = (b.get_piece i j).kind) ∧
        ((acc.get_piece i j).row = (b.get_piece i j).row ∧
          (acc.get_piece i j).col = (b.get_piece i j).col)) →
      ∀ i j : Fin 8,
        (((l.foldl (tickStep t u) acc).get_piece i j).side = (b.get_piece i j).side ∧
          ((l.foldl (tickStep t u) acc).get_piece i j).kind = (b.get_piece i j).kind) ∧
        (((l.foldl (tickStep t u) acc).get_piece i j).row = (b.get_piece i j).row ∧
          ((l.foldl (tickStep t u) acc).get_piece i j).col = (b.get_piece i j).col) := by
  intro l
  induction l with
  | nil => intro acc hacc; exact hacc
  | cons pos rest ih =>
      intro acc hacc
      rw [List.foldl_cons]
      apply ih
      intro i j
      by_cases hij : i = pos.1 ∧ j = pos.2
      · rw [hij.1, hij.2]
        unfold tickStep
        rw [get_piece_update_same]
        refine ⟨⟨?_, ?_⟩, ?_, ?_⟩
        · rw [tick_side]; exact (hacc pos.1 pos.2).1.1
        · rw [tick_kind]; exact (hacc pos.1 pos.2).1.2
        · rw [tick_row]; exact (hacc pos.1 pos.2).2.1
        · rw [tick_col]; exact (hacc pos.1 pos.2).2.2
      · unfold tickStep
        rw [get_piece_update_other _ _ _ _ _ _ hij]
        exact hacc i j

theorem tickAll_pres (b : Board) (t : Side) (u : Bool) (i j : Fin 8) :
    (((tickAll b t u).get_piece i j).side = (b.get_piece i j).side ∧
      ((tickAll b t u).get_piece i j).kind = (b.get_piece i j).kind) ∧
    (((tickAll b t u).get_piece i j).row = (b.get_piece i j).row ∧
      ((tickAll b t u).get_piece i j).col = (b.get_piece i j).col) :=
  foldl_tickStep_pres t u b allPositions b
    (fun _ _ => ⟨⟨rfl, rfl⟩, rfl, rfl⟩) i j

theorem tickAll_posInv (b : Board) (t : Side) (u : Bool) (h : posInv b) :
    posInv (tickAll b t u) := by
  intro i j
  obtain ⟨_, hrow, hcol⟩ := tickAll_pres b t u i j
  rw [hrow, hcol]
  exact h i j

theorem tickAll_kingCount (b : Board) (t : Side) (u : Bool) (s : Side) :
    kingCount (tickAll b t u) s = kingCount b s :=
  kingCount_congr b (tickAll b t u) s (fun i j => (tickAll_pres b t u i j).1)

theorem symToKind_eq_king (s : String) (h : symToKind s = some Kind.king) :
    s = "K" := by
  unfold symToKind at h
  split at h <;> simp_all

theorem move_piece_error_board (b : Board) (source dest : Piece)
    (em : String × Board) (h : b.move_piece source dest = Except.error em) :
    em.2 = b := by
  unfold Board.move_piece at h
  split at h
  · exact absurd h (by simp)
  · split at h
    · rw [Except.error.injEq] at h
      rw [← h]
    · exact absurd h (by simp)

theorem kingInd_side_ne (p : Piece) (s : Side) (h : p.side ≠ s) :
    kingInd p s = 0 := by
  unfold kingInd
  rw [if_neg]
  intro hc
  exact h hc.1

theorem qualifies_side_empty (b : Board) (turn : Side) (pos : Fin 8 × Fin 8)
    (h : qualifies b turn pos = true) :
    (b.get_piece pos.1 pos.2).side = Side.empty := by
  unfold qualifies at h
  rw [decide_eq_true_eq] at h
  exact h.1

theorem placeStep_queue_nil (turn : Side) (st : Board × List String)
    (pos : Fin 8 × Fin 8) (h : st.2 = []) : placeStep turn st pos = st := by
  unfold placeStep
  rw [h]

theorem placeStep_queue_cons (turn : Side) (st : Board × List String)
    (pos : Fin 8 × Fin 8) (next : String) (rest : List String) (k : Kind)
    (hq : st.2 = next :: rest) (hk : symToKind next = some k) :
    placeStep turn st pos =
      (updateBoard st.1 pos.1 pos.2 (Piece.start turn (some k) pos.1 pos.2),
        rest ++ [next]) := by
  unfold placeStep Board.set_new_piece
  rw [hq]
  dsimp only
  rw [hk]

theorem placeStep_queue_cons_bad (turn : Side) (st : Board × List String)
    (pos : Fin 8 × Fin 8) (next : String) (rest : List String)
    (hq : st.2 = next :: rest) (hk : symToKind next = none) :
    placeStep turn st pos = st := by
  unfold placeStep Board.set_new_piece
  rw [hq]
  dsimp only
  rw [hk]

theorem birthStep_inv (turn : Side) (st : Board × List String)
    (pos : Fin 8 × Fin 8) (h1 : posInv st.1)
    (h2 : kingCount st.1 Side.white ≤ 1) (h3 : kingCount st.1 Side.black ≤ 1)
    (h4 : st.2.IsRotated seedQueue) :
    posInv (birthStep turn st pos).1 ∧
    kingCount (birthStep turn st pos).1 Side.white ≤ 1 ∧
    kingCount (birthStep turn st pos).1 Side.black ≤ 1 ∧
    (birthStep turn st pos).2.IsRotated seedQueue := by
  by_cases hqual : qualifies st.1 turn pos = true
  case neg =>
    rw [birthStep_of_not_qualifies turn st pos (by simpa using hqual)]
    exact ⟨h1, h2, h3, h4⟩
  rw [birthStep_of_qualifies turn st pos hqual]
  cases hq : st.2 with
  | nil =>
      rw [placeStep_queue_nil turn st pos hq]
      exact ⟨h1, h2, h3, h4⟩
  | cons next rest =>
      rw [hq] at h4
      have hKnotin : "K" ∉ next :: rest := by
        intro hmem
        have hKseed : "K" ∈ seedQueue := (List.IsRotated.perm h4).mem_iff.mp hmem
        revert hKseed
        decide
      cases hsk : symToKind next with
      | none =>
          rw [placeStep_queue_cons_bad turn st pos next rest hq hsk]
          exact ⟨h1, h2, h3, hq ▸ h4⟩
      | some k =>
          rw [placeStep_queue_cons turn st pos next rest k hq hsk]
          have hkk : k ≠ Kind.king := by
            intro hke
            subst hke
            exact hKnotin (by
              rw [symToKind_eq_king next hsk]
              exact List.mem_cons_self _ _)
          have hempty : (st.1.get_piece pos.1 pos.2).side = Side.empty :=
            qualifies_side_empty st.1 turn pos hqual
          have hkc : ∀ s : Side, s ≠ Side.empty →
              kingCount (updateBoard st.1 pos.1 pos.2
                (Piece.start turn (some k) pos.1 pos.2)) s = kingCount st.1 s := by
            intro s hs
            have hup := kingCount_update st.1 pos.1 pos.2
              (Piece.start turn (some k) pos.1 pos.2) s
            have hindnew : kingInd (Piece.start turn (some k) pos.1 pos.2) s = 0 := by
              apply kingInd_kind_ne
              simp [Piece.start, hkk]
            have hindold : kingInd (st.1.get_piece pos.1 pos.2) s = 0 := by
              apply kingInd_side_ne
              rw [hempty]
              exact fun hc => hs hc.symm
            rw [hindnew, hindold] at hup
            omega
          refine ⟨?_, ?_, ?_, ?_⟩
          · intro i j
            by_cases hij : i = pos.1 ∧ j = pos.2
            · rw [hij.1, hij.2, get_piece_update_same]
              exact ⟨rfl, rfl⟩
            · rw [get_piece_update_other _ _ _ _ _ _ hij]
              exact h1 i j
          · rw [hkc Side.white (by simp)]
            exact h2
          · rw [hkc Side.black (by simp)]
            exact h3
          · exact (isRotated_rotateN (next :: rest) 1).symm.trans h4

theorem birthScanBoard_nil (turn : Side) (st : Board × List String) :
    birthScanBoard turn [] st = st.1 := rfl

theorem birthScanQueue_nil (turn : Side) (st : Board × List String) :
    birthScanQueue turn [] st = st.2 := rfl

theorem birthScanBoard_cons (turn : Side) (st : Board × List String)
    (pos : Fin 8 × Fin 8) (rest : List (Fin 8 × Fin 8)) :
    birthScanBoard turn (pos :: rest) st =
      birthScanBoard turn rest (birthStep turn st pos) := rfl

theorem birthScanQueue_cons (turn : Side) (st : Board × List String)
    (pos : Fin 8 × Fin 8) (rest : List (Fin 8 × Fin 8)) :
    birthScanQueue turn (pos :: rest) st =
      birthScanQueue turn rest (birthStep turn st pos) := rfl

theorem birthScan_inv (turn : Side) :
    ∀ (l : List (Fin 8 × Fin 8)) (st : Board × List String),
      posInv st.1 → kingCount st.1 Side.white ≤ 1 →
      kingCount st.1 Side.black ≤ 1 → st.2.IsRotated seedQueue →
      posInv (birthScanBoard turn l st) ∧
      kingCount (birthScanBoard turn l st) Side.white ≤ 1 ∧
      kingCount (birthScanBoard turn l st) Side.black ≤ 1 ∧
      (birthScanQueue turn l st).IsRotated seedQueue := by
  intro l
  induction l with
  | nil =>
      intro st h1 h2 h3 h4
      rw [birthScanBoard_nil, birthScanQueue_nil]
      exact ⟨h1, h2, h3, h4⟩
  | cons pos rest ih =>
      intro st h1 h2 h3 h4
      rw [birthScanBoard_cons, birthScanQueue_cons]
      obtain ⟨g1, g2, g3, g4⟩ := birthStep_inv turn st pos h1 h2 h3 h4
      exact ih (birthStep turn st pos) g1 g2 g3 g4

theorem engineInv_mk (e : Engine) (b : Board) (wq bq : List String)
    (h1 : posInv b) (h2 : kingCount b Side.white ≤ 1)
    (h3 : kingCount b Side.black ≤ 1) (h4 : wq.IsRotated seedQueue)
    (h5 : bq.IsRotated seedQueue) :
    EngineInv { e with board := b, white_birth_queue := wq, black_birth_queue := bq } :=
  ⟨h1, h2, h3, h4, h5⟩

theorem birthPass_inv (e : Engine) (h : EngineInv e) : EngineInv (birthPass e) := by
  obtain ⟨h1, h2, h3, h4, h5⟩ := h
  unfold birthPass
  split
  · obtain ⟨g1, g2, g3, g4⟩ := birthScan_inv Side.white allPositions
      (e.board, e.white_birth_queue) h1 h2 h3 h4
    exact engineInv_mk e
      (birthScanBoard Side.white allPositions (e.board, e.white_birth_queue))
      (birthScanQueue Side.white allPositions (e.board, e.white_birth_queue))
      e.black_birth_queue g1 g2 g3 g4 h5
  · split
    · obtain ⟨g1, g2, g3, g4⟩ := birthScan_inv Side.black blackScanOrder
        (e.board, e.black_birth_queue) h1 h2 h3 h5
      exact engineInv_mk e
        (birthScanBoard Side.black blackScanOrder (e.board, e.black_birth_queue))
        e.white_birth_queue
        (birthScanQueue Side.black blackScanOrder (e.board, e.black_birth_queue))
        g1 g2 g3 h4 g4
    · exact ⟨h1, h2, h3, h4, h5⟩

theorem foldl_deathStep_error (turn : Side) (em : String × Board) :
    ∀ l : List Piece,
      l.foldl (deathStep turn) (Except.error em) = Except.error em := by
  intro l
  induction l with
  | nil => rfl
  | cons p rest ih =>
      rw [List.foldl_cons]
      exact ih

theorem deathStep_ok_inv (turn : Side) (p : Piece) (bd : Board)
    (h1 : posInv bd) (h2 : kingCount bd Side.white ≤ 1)
    (h3 : kingCount bd Side.black ≤ 1) :
    (∀ bd2, deathStep turn (Except.ok bd) p = Except.ok bd2 →
        posInv bd2 ∧ kingCount bd2 Side.white ≤ 1 ∧
          kingCount bd2 Side.black ≤ 1) ∧
    (∀ em, deathStep turn (Except.ok bd) p = Except.error em →
        posInv em.2 ∧ kingCount em.2 Side.white ≤ 1 ∧
          kingCount em.2 Side.black ≤ 1) := by
  unfold deathStep
  dsimp only
  by_cases hdc : p.death_counter = 4
  case neg =>
    rw [if_neg hdc]
    constructor
    · intro bd2 hok
      rw [Except.ok.injEq] at hok
      rw [← hok]
      exact ⟨h1, h2, h3⟩
    · intro em hem
      exact absurd hem (by simp)
  case pos =>
    rw [if_pos hdc]
    by_cases hside : p.side = turn
    · by_cases hking : (bd.get_piece p.row p.col).kind = some Kind.king
      · rw [kill_piece_king bd p turn hside hking]
        constructor
        · intro bd2 hok
          exact absurd hok (by simp)
        · intro em hem
          rw [Except.error.injEq] at hem
          rw [← hem]
          exact ⟨h1, h2, h3⟩
      · rw [kill_piece_removes bd p turn hside hking]
        constructor
        · intro bd2 hok
          rw [Except.ok.injEq] at hok
          rw [← hok]
          have hup : ∀ s : Side,
              kingCount (updateBoard bd p.row p.col
                (Piece.start Side.empty none p.row p.col)) s ≤ kingCount bd s := by
            intro s
            have hk := kingCount_update bd p.row p.col
              (Piece.start Side.empty none p.row p.col) s
            have hz : kingInd (Piece.start Side.empty none p.row p.col) s = 0 := by
              apply kingInd_kind_ne
              simp [Piece.start]
            rw [hz] at hk
            omega
          refine ⟨?_, ?_, ?_⟩
          · intro i j
            by_cases hij : i = p.row ∧ j = p.col
            · rw [hij.1, hij.2, get_piece_update_same]
              exact ⟨rfl, rfl⟩
            · rw [get_piece_update_other _ _ _ _ _ _ hij]
              exact h1 i j
          · exact le_trans (hup Side.white) h2
          · exact le_trans (hup Side.black) h3
        · intro em hem
          exact absurd hem (by simp)
    · rw [kill_piece_other_side bd p turn hside]
      constructor
      · intro bd2 hok
        rw [Except.ok.injEq] at hok
        rw [← hok]
        exact ⟨h1, h2, h3⟩
      · intro em hem
        exact absurd hem (by simp)

theorem foldl_deathStep_inv (turn : Side) :
    ∀ (l : List Piece) (bd : Board),
      posInv bd → kingCount bd Side.white ≤ 1 →
      kingCount bd Side.black ≤ 1 →
      (∀ bd2, l.foldl (deathStep turn) (Except.ok bd) = Except.ok bd2 →
          posInv bd2 ∧ kingCount bd2 Side.white ≤ 1 ∧
            kingCount bd2 Side.black ≤ 1) ∧
      (∀ em, l.foldl (deathStep turn) (Except.ok bd) = Except.error em →
          posInv em.2 ∧ kingCount em.2 Side.white ≤ 1 ∧
            kingCount em.2 Side.black ≤ 1) := by
  intro l
  induction l with
  | nil =>
      intro bd h1 h2 h3
      constructor
      · intro bd2 hok
        rw [List.foldl_nil, Except.ok.injEq] at hok
        rw [← hok]
        exact ⟨h1, h2, h3⟩
      · intro em hem
        rw [List.foldl_nil] at hem
        exact absurd hem (by simp)
  | cons p rest ih =>
      intro bd h1 h2 h3
      obtain ⟨hoks, herrs⟩ := deathStep_ok_inv turn p bd h1 h2 h3
      cases hstep : deathStep turn (Except.ok bd) p with
      | error em0 =>
          obtain ⟨q1, q2, q3⟩ := herrs em0 hstep
          constructor
          · intro bd2 hok
            rw [List.foldl_cons, hstep, foldl_deathStep_error] at hok
            exact absurd hok (by simp)
          · intro em hem
            rw [List.foldl_cons, hstep, foldl_deathStep_error,
              Except.error.injEq] at hem
            rw [← hem]
            exact ⟨q1, q2, q3⟩
      | ok bd1 =>
          obtain ⟨q1, q2, q3⟩ := hoks bd1 hstep
          obtain ⟨ih1, ih2⟩ := ih bd1 q1 q2 q3
          constructor
          · intro bd2 hok
            rw [List.foldl_cons, hstep] at hok
            exact ih1 bd2 hok
          · intro em hem
            rw [List.foldl_cons, hstep] at hem
            exact ih2 em hem

theorem deathPass_inv (b : Board) (turn : Side)
    (h1 : posInv b) (h2 : kingCount b Side.white ≤ 1)
    (h3 : kingCount b Side.black ≤ 1) :
    (∀ b2, deathPass b turn = Except.ok b2 →
        posInv b2 ∧ kingCount b2 Side.white ≤ 1 ∧
          kingCount b2 Side.black ≤ 1) ∧
    (∀ em, deathPass b turn = Except.error em →
        posInv em.2 ∧ kingCount em.2 Side.white ≤ 1 ∧
          kingCount em.2 Side.black ≤ 1) := by
  unfold deathPass
  exact foldl_deathStep_inv turn b.get_pieces b h1 h2 h3

theorem engineInv_set_board (e : Engine) (b : Board)
    (hb : posInv b) (hw : kingCount b Side.white ≤ 1)
    (hbk : kingCount b Side.black ≤ 1)
    (h4 : e.white_birth_queue.IsRotated seedQueue)
    (h5 : e.black_birth_queue.IsRotated seedQueue) :
    EngineInv { e with board := b } :=
  ⟨hb, hw, hbk, h4, h5⟩

theorem engineInv_set_selected (e : Engine) (v : Option (Fin 8 × Fin 8))
    (h : EngineInv e) : EngineInv { e with selected_piece := v } :=
  ⟨h.1, h.2.1, h.2.2.1, h.2.2.2.1, h.2.2.2.2⟩

theorem engineInv_set_cursor_row (e : Engine) (x : Fin 8) (h : EngineInv e) :
    EngineInv { e with cursor_row := x } :=
  ⟨h.1, h.2.1, h.2.2.1, h.2.2.2.1, h.2.2.2.2⟩

theorem engineInv_set_cursor_col (e : Engine) (x : Fin 8) (h : EngineInv e) :
    EngineInv { e with cursor_col := x } :=
  ⟨h.1, h.2.1, h.2.2.1, h.2.2.2.1, h.2.2.2.2⟩

theorem engineInv_set_msg_board (e : Engine) (m : Option String) (b : Board)
    (hb : posInv b) (hw : kingCount b Side.white ≤ 1)
    (hbk : kingCount b Side.black ≤ 1)
    (h4 : e.white_birth_queue.IsRotated seedQueue)
    (h5 : e.black_birth_queue.IsRotated seedQueue) :
    EngineInv { e with game_over_message := m, board := b } :=
  ⟨hb, hw, hbk, h4, h5⟩

theorem engineInv_move_setup (e : Engine) (b : Board)
    (v : Option (Fin 8 × Fin 8)) (t : Side)
    (hb : posInv b) (hw : kingCount b Side.white ≤ 1)
    (hbk : kingCount b Side.black ≤ 1)
    (h4 : e.white_birth_queue.IsRotated seedQueue)
    (h5 : e.black_birth_queue.IsRotated seedQueue) :
    EngineInv { e with board := b, selected_piece := v, current_turn := t } :=
  ⟨hb, hw, hbk, h4, h5⟩

theorem engine_move_is_valid_fields (e : Engine) (source dest : Piece) :
    (e.move_is_valid source dest).1.board = e.board ∧
    (e.move_is_valid source dest).1.white_birth_queue = e.white_birth_queue ∧
    (e.move_is_valid source dest).1.black_birth_queue = e.black_birth_queue ∧
    ((e.move_is_valid source dest).2 = true →
      source.move_is_valid dest = true) := by
  unfold Engine.move_is_valid
  split
  case isTrue hv => exact ⟨rfl, rfl, rfl, fun _ => hv⟩
  case isFalse hv =>
      refine ⟨rfl, rfl, rfl, fun hc => ?_⟩
      exact absurd hc (by simp)

theorem move_piece_ok_inv (b : Board) (sr sc dr dc : Fin 8)
    (hpos : posInv b) (h2 : kingCount b Side.white ≤ 1)
    (h3 : kingCount b Side.black ≤ 1) (okv : Board × Bool)
    (hok : b.move_piece (b.get_piece sr sc) (b.get_piece dr dc) =
      Except.ok okv) :
    posInv okv.1 ∧ kingCount okv.1 Side.white ≤ 1 ∧
      kingCount okv.1 Side.black ≤ 1 := by
  cases hval : (b.get_piece sr sc).move_is_valid (b.get_piece dr dc) with
  | false =>
      unfold Board.move_piece at hok
      rw [hval] at hok
      rw [if_pos rfl, Except.ok.injEq] at hok
      rw [← hok]
      exact ⟨hpos, h2, h3⟩
  | true =>
      by_cases hk : (b.get_piece dr dc).kind = some Kind.king
      · rw [move_piece_king_capture b _ _ hval
          (by rw [(hpos dr dc).1, (hpos dr dc).2]; exact hk)] at hok
        exact absurd hok (by simp)
      · have hne : ¬(sr = dr ∧ sc = dc) := move_is_valid_ne_square b sr sc dr dc hval
        have hne2 : ¬(dr = sr ∧ dc = sc) := fun hc => hne ⟨hc.1.symm, hc.2.symm⟩
        have hchar := move_piece_ok_char b (b.get_piece sr sc) (b.get_piece dr dc)
          hval (by rw [(hpos dr dc).1, (hpos dr dc).2]; exact hk)
        rw [(hpos dr dc).1, (hpos dr dc).2, (hpos sr sc).1, (hpos sr sc).2] at hchar
        rw [hchar, Except.ok.injEq] at hok
        rw [← hok]
        have hb1src : (updateBoard b dr dc (b.get_piece sr sc)).get_piece sr sc =
            b.get_piece sr sc := get_piece_update_other _ _ _ _ _ _ hne
        have hb2dst : (updateBoard (updateBoard b dr dc (b.get_piece sr sc)) sr sc
              (Piece.start Side.empty none sr sc)).get_piece dr dc =
            b.get_piece sr sc := by
          rw [get_piece_update_other _ _ _ _ _ _ hne2, get_piece_update_same]
        have hcount : ∀ s : Side,
            kingCount (updateBoard
              (updateBoard (updateBoard b dr dc (b.get_piece sr sc)) sr sc
                (Piece.start Side.empty none sr sc)) dr dc
              ((b.get_piece sr sc).set_position dr dc)) s = kingCount b s := by
          intro s
          have k1 := kingCount_update b dr dc (b.get_piece sr sc) s
          have k2 := kingCount_update (updateBoard b dr dc (b.get_piece sr sc))
            sr sc (Piece.start Side.empty none sr sc) s
          have k3 := kingCount_update (updateBoard
            (updateBoard b dr dc (b.get_piece sr sc)) sr sc
            (Piece.start Side.empty none sr sc)) dr dc
            ((b.get_piece sr sc).set_position dr dc) s
          rw [hb1src] at k2
          rw [hb2dst, kingInd_set_position] at k3
          have hz1 : kingInd (b.get_piece dr dc) s = 0 := kingInd_kind_ne _ _ hk
          have hz2 : kingInd (Piece.start Side.empty none sr sc) s = 0 := by
            apply kingInd_kind_ne
            simp [Piece.start]
          rw [hz1] at k1
          rw [hz2] at k2
          omega
        refine ⟨?_, ?_, ?_⟩
        · intro i j
          by_cases hijd : i = dr ∧ j = dc
          · rw [hijd.1, hijd.2, get_piece_update_same]
            exact ⟨rfl, rfl⟩
          · rw [get_piece_update_other _ _ _ _ _ _ hijd]
            by_cases hijs : i = sr ∧ j = sc
            · rw [hijs.1, hijs.2, get_piece_update_same]
              exact ⟨rfl, rfl⟩
            · rw [get_piece_update_other _ _ _ _ _ _ hijs,
                get_piece_update_other _ _ _ _ _ _ hijd]
              exact hpos i j
        · rw [hcount Side.white]
          exact h2
        · rw [hcount Side.black]
          exact h3

theorem resolveTurn_inv (e2 : Engine) (h : EngineInv e2) :
    EngineInv (resolveTurn e2).1 := by
  obtain ⟨h1, h2, h3, h4, h5⟩ := h
  have hinv3 : EngineInv { e2 with board := tickAll e2.board e2.current_turn true } :=
    engineInv_set_board e2 (tickAll e2.board e2.current_turn true)
      (tickAll_posInv e2.board e2.current_turn true h1)
      (by rw [tickAll_kingCount]; exact h2)
      (by rw [tickAll_kingCount]; exact h3) h4 h5
  have hinv4 : EngineInv (birthPass { e2 with board := tickAll e2.board e2.current_turn true }) :=
    birthPass_inv _ hinv3
  obtain ⟨g1, g2, g3, g4, g5⟩ := hinv4
  unfold resolveTurn
  dsimp only
  cases hdp : deathPass (birthPass { e2 with board := tickAll e2.board e2.current_turn true }).board (birthPass { e2 with board := tickAll e2.board e2.current_turn true }).current_turn with
  | error de =>
      obtain ⟨dq1, dq2, dq3⟩ := (deathPass_inv
        (birthPass { e2 with board := tickAll e2.board e2.current_turn true }).board
        (birthPass { e2 with board := tickAll e2.board e2.current_turn true }).current_turn
        g1 g2 g3).2 de hdp
      exact engineInv_set_msg_board
        (birthPass { e2 with board := tickAll e2.board e2.current_turn true })
        (some de.1) de.2 dq1 dq2 dq3 g4 g5
  | ok b5 =>
      obtain ⟨dq1, dq2, dq3⟩ := (deathPass_inv
        (birthPass { e2 with board := tickAll e2.board e2.current_turn true }).board
        (birthPass { e2 with board := tickAll e2.board e2.current_turn true }).current_turn
        g1 g2 g3).1 b5 hdp
      exact engineInv_set_board
        (birthPass { e2 with board := tickAll e2.board e2.current_turn true })
        (tickAll b5 (birthPass { e2 with board := tickAll e2.board e2.current_turn true }).current_turn false)
        (tickAll_posInv _ _ _ dq1)
        (by rw [tickAll_kingCount]; exact dq2)
        (by rw [tickAll_kingCount]; exact dq3) g4 g5

theorem update_state_inv (e : Engine) (k : Key) (h : EngineInv e) :
    EngineInv (e.update_state k).1 := by
  obtain ⟨h1, h2, h3, h4, h5⟩ := h
  cases k with
  | up => exact engineInv_set_cursor_row e _ ⟨h1, h2, h3, h4, h5⟩
  | down => exact engineInv_set_cursor_row e _ ⟨h1, h2, h3, h4, h5⟩
  | left => exact engineInv_set_cursor_col e _ ⟨h1, h2, h3, h4, h5⟩
  | right => exact engineInv_set_cursor_col e _ ⟨h1, h2, h3, h4, h5⟩
  | sf => exact ⟨h1, h2, h3, h4, h5⟩
  | other => exact engineInv_set_selected e none ⟨h1, h2, h3, h4, h5⟩
  | enter =>
      unfold Engine.update_state
      cases hsel : e.selected_piece with
      | none =>
          dsimp only
          split
          · exact engineInv_set_selected e _ ⟨h1, h2, h3, h4, h5⟩
          · exact ⟨h1, h2, h3, h4, h5⟩
      | some sel =>
          dsimp only
          obtain ⟨hfb, hfw, hfbl, hfv⟩ := engine_move_is_valid_fields e
            (e.board.get_piece sel.1 sel.2)
            (e.board.get_piece e.cursor_row e.cursor_col)
          split
          case isTrue hmv =>
            rw [hfb]
            cases hmp : e.board.move_piece (e.board.get_piece sel.1 sel.2)
                (e.board.get_piece e.cursor_row e.cursor_col) with
            | error em =>
                dsimp only
                have hbd : em.2 = e.board := move_piece_error_board _ _ _ em hmp
                exact engineInv_set_msg_board _ (some em.1) em.2
                  (by rw [hbd]; exact h1) (by rw [hbd]; exact h2)
                  (by rw [hbd]; exact h3)
                  (by rw [hfw]; exact h4) (by rw [hfbl]; exact h5)
            | ok okv =>
                dsimp only
                obtain ⟨m1, m2, m3⟩ := move_piece_ok_inv e.board sel.1 sel.2
                  e.cursor_row e.cursor_col h1 h2 h3 okv hmp
                exact resolveTurn_inv _
                  (engineInv_move_setup _ okv.1 none _ m1 m2 m3
                    (by rw [hfw]; exact h4) (by rw [hfbl]; exact h5))
          case isFalse hmv =>
            exact ⟨h1, h2, h3, h4, h5⟩

theorem start_inv : EngineInv Engine.start := by
  refine ⟨by decide, by decide, by decide, ?_, ?_⟩
  · exact List.IsRotated.refl seedQueue
  · exact List.IsRotated.refl seedQueue

theorem run_inv (keys : List Key) : EngineInv (run keys) := by
  have hstep : ∀ (l : List Key) (e : Engine), EngineInv e →
      EngineInv (l.foldl (fun e k => (e.update_state k).1) e) := by
    intro l
    induction l with
    | nil => intro e he; exact he
    | cons k rest ih =>
        intro e he
        rw [List.foldl_cons]
        exact ih _ (update_state_inv e k he)
  unfold run
  exact hstep keys Engine.start start_inv

/-- C8: in every state reachable from the initial position by any input
sequence, each side has at most one King on the board, and the birth queues
never contain the King symbol, so nothing but the initial setup can
introduce a King. -/
theorem C8_at_most_one_king_per_side (keys : List Key) :
    kingCount (run keys).board Side.white ≤ 1 ∧
    kingCount (run keys).board Side.black ≤ 1 ∧
    "K" ∉ (run keys).white_birth_queue ∧
    "K" ∉ (run keys).black_birth_queue := by
  obtain ⟨h1, h2, h3, h4, h5⟩ := run_inv keys
  refine ⟨h2, h3, ?_, ?_⟩
  · intro hmem
    have hs : "K" ∈ seedQueue := (List.IsRotated.perm h4).mem_iff.mp hmem
    revert hs
    decide
  · intro hmem
    have hs : "K" ∈ seedQueue := (List.IsRotated.perm h5).mem_iff.mp hmem
    revert hs
    decide

/-- C5: both birth queues start as the 14-element seed
`[P,R,P,N,P,B,P,Q,P,B,P,N,P,R]`; a spawn pops the front and pushes it to the
back, so rotation preserves length and cyclic order, 14 consecutive births
spawn exactly the seed order and return the queue to the seed, and over any
whole game each queue remains a rotation of the seed of length 14. -/
theorem C5_birth_queue_rotation :
    seedQueue.length = 14 ∧
    Engine.start.white_birth_queue = seedQueue ∧
    Engine.start.black_birth_queue = seedQueue ∧
    (∀ (q : List String) (n : Nat), (rotateN q n).length = q.length) ∧
    (∀ (q : List String) (n : Nat), q.IsRotated (rotateN q n)) ∧
    spawnSeq seedQueue 14 = seedQueue ∧
    rotateN seedQueue 14 = seedQueue ∧
    (∀ (turn : Side) (st : Board × List String) (pos : Fin 8 × Fin 8)
        (next : String) (rest : List String),
      st.2 = next :: rest → (symToKind next).isSome = true →
      qualifies st.1 turn pos = true →
      (birthStep turn st pos).2 = rest ++ [next]) ∧
    (∀ keys : List Key,
      (run keys).white_birth_queue.IsRotated seedQueue ∧
      (run keys).black_birth_queue.IsRotated seedQueue ∧
      (run keys).white_birth_queue.length = 14 ∧
      (run keys).black_birth_queue.length = 14) := by
  refine ⟨by decide, rfl, rfl, rotateN_length, isRotated_rotateN,
    by decide, by decide, birthStep_queue_rotates, ?_⟩
  intro keys
  obtain ⟨_, _, _, h4, h5⟩ := run_inv keys
  exact ⟨h4, h5,
    ((List.IsRotated.perm h4).length_eq).trans (by decide),
    ((List.IsRotated.perm h5).length_eq).trans (by decide)⟩

/-- Witness for C5: a qualifying birth on a concrete board pops the seed's
front Pawn and pushes it to the back. -/
theorem C5_witness :
    (birthStep Side.white
      (updateBoard startBoard 3 3
        { Piece.start Side.empty none 3 3 with birth_counter_white := 3 },
       seedQueue) (3, 3)).2 =
      ["R", "P", "N", "P", "B", "P", "Q", "P", "B", "P", "N", "P", "R"] ++ ["P"] :=
  C5_birth_queue_rotation.2.2.2.2.2.2.2.1 Side.white
    (updateBoard startBoard 3 3
      { Piece.start Side.empty none 3 3 with birth_counter_white := 3 },
     seedQueue) (3, 3) "P"
    ["R", "P", "N", "P", "B", "P", "Q", "P", "B", "P", "N", "P", "R"]
    rfl (by decide) (by decide)
